import Mathlib

/-!
Verification development for the athan daemon (src/athan.py).

We give a shallow embedding of the pure logic of the program:
- `play_quran_segment` / `playLoopAux`: the bounded, looping segment player
  (time idealized: `time.sleep` advances the clock exactly, everything else
  is instantaneous; seconds are integers — every constant in the source is a
  whole number of seconds, and the operations involved, addition,
  subtraction, `min` and `%`, preserve integrality, so on integer inputs the
  integer model agrees with exact real arithmetic; `Int.emod` agrees with
  Python's `%` for a positive modulus).
- `build_today_schedule` / `emitSchedule`: the daily schedule builder
  (times are seconds since local midnight, as integers; the stable Python
  `list.sort` is modelled by `List.insertionSort`, a stable sort).
- `should_refresh`: the refresh policy.
- `tickFire` and `tick`: the engine's steady-state polling loop (one pass
  over the schedule, firing due events and recording them in the fired set),
  with an `EngineState` record and a ghost log of successful rebuilds.
-/

namespace Athan

/-! ### Configuration constants (from the CONFIG block of athan.py) -/

def SOUND_GENERAL : String := "./audio/athanfull.mp3"

def SOUND_FAJR : String := "./audio/athanfullfajr.mp3"

def SOUND_ISHA_PRE : String := "./audio/athkar_masaa.mp3"

def SOUND_MORNING : String := "./audio/morning_athkar.mp3"

def SOUND_KAHF : String := "./audio/alkahf.mp3"

def PRAYERS : List String := ["Fajr", "Dhuhr", "Asr", "Maghrib", "Isha"]

/-- Length of the Quran pre-clip playback window, in seconds. -/
def PRECLIP_SECONDS : ℤ := 600

/-- Width of the trigger window for due events, in seconds. -/
def TRIGGER_WINDOW_SEC : ℤ := 60

/-- 02:00 local time, in seconds since midnight (`dtime(2, 0)`). -/
def dtime2AM : ℤ := 2 * 3600

/-! ### Segment player (`play_quran_segment`)

Python's `_play_loop` runs `while time.time() < end_time`, each iteration
playing for `min(duration - offset, end_time - time.time())` seconds and then
setting `offset = 0`.  We idealize wall-clock time: the window starts at
`t = 0` and ends at `t = window`; `time.sleep(play_time)` advances `t` by
exactly `play_time`.  The loop is embedded with fuel; the fuel chosen in
`play_quran_segment` is enough for every input that terminates. -/

/-- One state of the play loop is `(t, offset)`: the current idealized time
and the in-resource offset the next `pygame` play would start from.
`playLoopAux fuel duration endTime t offset` runs the
`while time.time() < end_time` loop and returns the state at loop exit. -/
def playLoopAux : ℕ → ℤ → ℤ → ℤ → ℤ → ℤ × ℤ
  | 0, _, _, t, offset => (t, offset)
  | n + 1, duration, endTime, t, offset =>
    if t < endTime then
      playLoopAux n duration endTime (t + min (duration - offset) (endTime - t)) 0
    else (t, offset)

/-- `play_quran_segment duration offset0 window` models one call of
`play_quran_segment`: `offset0` is the value `load_offset()` returned,
`duration` the resource duration, `window` the playback window
(`PRECLIP_SECONDS` in the source).  Returns the offset passed to
`save_offset`, or `none` when the duration guard rejects the call
(`if not duration or duration <= 0: return`).  The fuel bounds the number
of embedded loop iterations; `window.toNat + 2` iterations always suffice,
since each iteration that is not the last advances `t` by at least one
whole second. -/
def play_quran_segment (duration offset0 window : ℤ) : Option ℤ :=
  if duration ≤ 0 then none
  else
    let offset := offset0 % duration
    let r := playLoopAux (window.toNat + 2) duration window 0 offset
    some ((r.2 + (r.1 - 0)) % duration)

/-! ### Refresh policy (`should_refresh`) -/

/-- `should_refresh nowDate nowTime lastRefreshDate refreshedAfter2am`.
Dates are abstract integers (calendar day numbers); `nowTime` is seconds
since midnight. -/
def should_refresh (nowDate nowTime : ℤ) (lastRefreshDate : Option ℤ)
    (refreshedAfter2am : Bool) : Bool :=
  if lastRefreshDate = none then true
  else if some nowDate ≠ lastRefreshDate then true
  else if ¬refreshedAfter2am ∧ dtime2AM ≤ nowTime then true
  else false

/-! ### Schedule builder (`build_today_schedule`) -/

/-- Event kinds: `"play"` (a normal mp3) or `"quran"` (the looping
Quran pre-clip). -/
inductive Kind where
  | play
  | quran
deriving DecidableEq

/-- One schedule entry `(label, datetime, kind, payload)`.  `fireAt` is in
seconds relative to local midnight of the build day (a negative value is an
instant on the previous day, as `datetime` subtraction would produce). -/
structure Event where
  label : String
  fireAt : ℤ
  kind : Kind
  payload : Option String
deriving DecidableEq

/-- `sound_for`: the dawn prayer gets its own variant file. -/
def sound_for (p : String) : String :=
  if p = "Fajr" then SOUND_FAJR else SOUND_GENERAL

/-- The key order used by `schedule.sort(key=lambda t: t[1])`. -/
def eventLe (a b : Event) : Prop := a.fireAt ≤ b.fireAt

instance : DecidableRel eventLe := fun a b =>
  inferInstanceAs (Decidable (a.fireAt ≤ b.fireAt))

instance : IsTotal Event eventLe := ⟨fun a b => Int.le_total a.fireAt b.fireAt⟩

instance : IsTrans Event eventLe := ⟨fun _ _ _ => Int.le_trans⟩

/-- The schedule in emission order, before the final sort.  `times` maps a
prayer name to its adhan time in seconds since midnight when the scrape
found it (`p in times`); `isFriday` is `date.today().weekday() == 4`;
`ishaPreFileExists` is `os.path.exists(SOUND_ISHA_PRE)`.  The Isha pre
event is 1167 seconds early: `timedelta(seconds=19.45*60)` is exactly
19 min 27 s (19.45·60 = 1167, and Python's float evaluation of `19.45*60`
rounds to the same 1167.000000 s at `timedelta`'s microsecond resolution). -/
def emitSchedule (times : String → Option ℤ) (isFriday ishaPreFileExists : Bool) :
    List Event :=
  let prayerEvents := PRAYERS.foldl (fun sch p =>
    match times p with
    | none => sch
    | some dtm =>
      let sch1 := if sound_for p = "" then sch
        else sch ++ [⟨p, dtm, Kind.play, some (sound_for p)⟩]
      if p ≠ "Isha" ∧ ¬(p = "Asr" ∧ isFriday = true) then
        sch1 ++ [⟨p ++ "-QuranPre", dtm - 5 * 60, Kind.quran, none⟩]
      else sch1) []
  let withIshaPre :=
    match times "Isha" with
    | some ishaDt =>
      if ishaPreFileExists then
        prayerEvents ++ [⟨"Isha-Pre", ishaDt - 1167, Kind.play, some SOUND_ISHA_PRE⟩]
      else prayerEvents
    | none => prayerEvents
  let withMorning :=
    withIshaPre ++ [⟨"Morning-Athkar", 6 * 3600 + 30 * 60, Kind.play, some SOUND_MORNING⟩]
  if isFriday = true then
    match times "Asr" with
    | some asrDt =>
      withMorning ++ [⟨"Kahf-PreAsr", asrDt - 31 * 60, Kind.play, some SOUND_KAHF⟩]
    | none => withMorning
  else withMorning

/-- `build_today_schedule`: emit, then `schedule.sort(key=lambda t: t[1])`.
Python's `list.sort` is stable; a stable sort by a fixed key is unique as a
function of the input list, so the stable `List.insertionSort` computes the
same list. -/
def build_today_schedule (times : String → Option ℤ)
    (isFriday ishaPreFileExists : Bool) : List Event :=
  List.insertionSort eventLe (emitSchedule times isFriday ishaPreFileExists)

/-- The builder input of the spec's worked example: Fajr 05:30 AM,
Dhuhr 12:15 PM, Asr 3:45 PM, Maghrib 6:50 PM, Isha 8:10 PM. -/
def exampleTimes : String → Option ℤ := fun p =>
  if p = "Fajr" then some (5 * 3600 + 30 * 60)
  else if p = "Dhuhr" then some (12 * 3600 + 15 * 60)
  else if p = "Asr" then some (15 * 3600 + 45 * 60)
  else if p = "Maghrib" then some (18 * 3600 + 50 * 60)
  else if p = "Isha" then some (20 * 3600 + 10 * 60)
  else none

/-- An input with a tie: Fajr at 06:35 makes the Fajr pre-segment (06:30)
collide with the fixed 06:30 morning event. -/
def tieTimes : String → Option ℤ := fun p =>
  if p = "Fajr" then some (6 * 3600 + 35 * 60) else none

/-! ### Event engine (the loop of `main`)

Here `fireAt` and `now` are absolute instants in seconds; a fired-set key
`(label, t.date(), t.time())` is the pair `(label, t)`, since the date and
the time-of-day together are exactly the instant. -/

/-- A fired-set key. -/
abbrev Key := String × ℤ

/-- The key `(label, t.date(), t.time())` added to `fired`. -/
def fireKey (e : Event) : Key := (e.label, e.fireAt)

/-- The due test of the steady-state loop:
`diff = (now - t).total_seconds()` with `0 <= diff < TRIGGER_WINDOW_SEC`. -/
def isDue (now : ℤ) (e : Event) : Prop :=
  0 ≤ now - e.fireAt ∧ now - e.fireAt < TRIGGER_WINDOW_SEC

instance (now : ℤ) (e : Event) : Decidable (isDue now e) :=
  inferInstanceAs (Decidable (0 ≤ now - e.fireAt ∧ now - e.fireAt < TRIGGER_WINDOW_SEC))

/-- One iteration of `for label, t, kind, payload in schedule:` in the main
loop.  The accumulator is `(fired, firedNow)`: the fired-key set (the code
mutates `fired` in place, so later events of the same pass already see keys
added earlier in the pass) and the events dispatched so far in this pass,
in order. -/
def tickFireStep (now : ℤ) (acc : List Key × List Event) (e : Event) :
    List Key × List Event :=
  if fireKey e ∈ acc.1 then acc
  else if isDue now e then (acc.1 ++ [fireKey e], acc.2 ++ [e])
  else acc

/-- The event-firing pass of one steady-state tick: fold `tickFireStep`
over the schedule, starting from the current fired set.  Returns the fired
set after the pass together with the events fired during it. -/
def tickFire (now : ℤ) (schedule : List Event) (fired : List Key) :
    List Key × List Event :=
  schedule.foldl (tickFireStep now) (fired, [])

/-- The mutable state of the loop in `main`.  `rebuilds` is a ghost history
variable: the `(date, timeOfDay)` of every successful
`build_today_schedule` call so far, recorded only so that invariants about
past rebuilds can be stated; no transition reads it. -/
structure EngineState where
  schedule : List Event
  fired : List Key
  lastRefreshDate : Option ℤ
  refreshedAfter2am : Bool
  rebuilds : List (ℤ × ℤ)

/-- The state established by the initial-fetch loop once a build succeeds:
`last_refresh_date = date.today()` and
`refreshed_after_2am = datetime.now().time() >= dtime(2, 0)`. -/
def initState (nowDate nowTime : ℤ) (sched : List Event) : EngineState :=
  { schedule := sched
    fired := []
    lastRefreshDate := some nowDate
    refreshedAfter2am := decide (dtime2AM ≤ nowTime)
    rebuilds := [(nowDate, nowTime)] }

/-- The update at the bottom of each tick:
`if not refreshed_after_2am and now.time() >= dtime(2, 0) and
now.date() == last_refresh_date: refreshed_after_2am = True`. -/
def lateFlagUpdate (nowDate nowTime : ℤ) (s : EngineState) : EngineState :=
  if s.refreshedAfter2am = false ∧ dtime2AM ≤ nowTime ∧
      s.lastRefreshDate = some nowDate then
    { s with refreshedAfter2am := true }
  else s

/-- One tick of the steady-state loop, read at the instant with calendar
date `nowDate`, time-of-day `nowTime` and absolute second count `nowAbs`.
`rebuild` is the outcome `build_today_schedule` would have on this tick:
`some sched` on success, `none` when it raises (in which case the code
sleeps an extended backoff and `continue`s, skipping the rest of the
tick).  Returns the state at the end of the tick together with the events
fired during it. -/
def tick (nowDate nowTime nowAbs : ℤ) (rebuild : Option (List Event))
    (s : EngineState) : EngineState × List Event :=
  if should_refresh nowDate nowTime s.lastRefreshDate s.refreshedAfter2am then
    match rebuild with
    | some sched =>
      let s1 : EngineState :=
        { schedule := sched
          fired := []
          lastRefreshDate := some nowDate
          refreshedAfter2am := decide (dtime2AM ≤ nowTime)
          rebuilds := s.rebuilds ++ [(nowDate, nowTime)] }
      let r := tickFire nowAbs s1.schedule s1.fired
      (lateFlagUpdate nowDate nowTime { s1 with fired := r.1 }, r.2)
    | none => (s, [])
  else
    let r := tickFire nowAbs s.schedule s.fired
    (lateFlagUpdate nowDate nowTime { s with fired := r.1 }, r.2)

/-- States of the loop in `main` reachable from a completed initial fetch
through any sequence of ticks (arbitrary clock readings, arbitrary rebuild
outcomes). -/
inductive Reachable : EngineState → Prop where
  | init : ∀ nowDate nowTime sched, Reachable (initState nowDate nowTime sched)
  | step : ∀ s nowDate nowTime nowAbs rebuild, Reachable s →
      Reachable (tick nowDate nowTime nowAbs rebuild s).1

/-- The C8 invariant: the flag is true only if the day identified by
`lastRefreshDate` had a successful schedule rebuild at or after 02:00. -/
def flagInvariant (s : EngineState) : Prop :=
  s.refreshedAfter2am = true →
    ∃ r ∈ s.rebuilds, s.lastRefreshDate = some r.1 ∧ dtime2AM ≤ r.2

/-! ### Theorems -/

/-- Characterization of `should_refresh`, shared by several proofs below. -/
theorem should_refresh_eq_true (nowDate nowTime : ℤ) (lastRefreshDate : Option ℤ)
    (refreshedAfter2am : Bool) :
    should_refresh nowDate nowTime lastRefreshDate refreshedAfter2am = true ↔
      (lastRefreshDate = none ∨ lastRefreshDate ≠ some nowDate ∨
        (refreshedAfter2am = false ∧ dtime2AM ≤ nowTime)) := by
  rcases lastRefreshDate with _ | d
  · simp [should_refresh]
  · rcases refreshedAfter2am with _ | _ <;>
      by_cases hd : nowDate = d <;> by_cases ht : dtime2AM ≤ nowTime <;>
      simp [should_refresh, hd, ht, eq_comm]

/-- C4: `should_refresh` returns true exactly when no prior refresh has
occurred (`lastRefreshDate` is null), or now's calendar date differs from
`lastRefreshDate`, or the post-02:00 refresh is still pending
(`refreshedAfter2AM` is false) and now's time-of-day is at or past 02:00;
in all other cases it returns false. -/
theorem should_refresh_iff (nowDate nowTime : ℤ) (lastRefreshDate : Option ℤ)
    (refreshedAfter2am : Bool) :
    should_refresh nowDate nowTime lastRefreshDate refreshedAfter2am = true ↔
      (lastRefreshDate = none ∨ lastRefreshDate ≠ some nowDate ∨
        (refreshedAfter2am = false ∧ dtime2AM ≤ nowTime)) :=
  should_refresh_eq_true nowDate nowTime lastRefreshDate refreshedAfter2am

/-- C5: the two offset round-trip instances of the spec: duration 600 s with
a 600 s window starting at offset 0 saves offset 0; duration 400 s with a
600 s window starting at offset 0 saves offset 200. -/
theorem play_quran_segment_roundtrip_instances :
    play_quran_segment 600 0 600 = some 0 ∧
      play_quran_segment 400 0 600 = some 200 := by
  constructor <;> decide

/-- C2 (failing input): with duration 400 s, stored offset 100 s and a 600 s
window, the code saves offset 200 = (0 + 600) mod 400 — the elapsed window
time modulo the duration, with the loop having reset `offset` to 0 — while
the exact elapsed-into-resource position at window close is
(100 + 600) mod 400 = 300.  The saved offset is not the resume position. -/
theorem play_quran_segment_drops_initial_offset :
    play_quran_segment 400 100 600 = some 200 ∧
      ((100 + 600) % 400 : ℤ) = 300 ∧ (200 : ℤ) ≠ 300 := by
  refine ⟨by decide, by decide, by decide⟩

/-- C3: on a non-congregational day with the spec's example times and the
Isha pre-file present, the builder emits exactly the eleven expected events
in ascending fire-time order: each prayer's adhan at its own time, a Quran
pre-segment five minutes before each prayer except Isha, the Isha pre event
at 19:50:33 (Isha minus 19.45 minutes), and the fixed morning event at
06:30. -/
theorem build_example_schedule :
    build_today_schedule exampleTimes false true =
      [⟨"Fajr-QuranPre", 19500, Kind.quran, none⟩,
       ⟨"Fajr", 19800, Kind.play, some SOUND_FAJR⟩,
       ⟨"Morning-Athkar", 23400, Kind.play, some SOUND_MORNING⟩,
       ⟨"Dhuhr-QuranPre", 43800, Kind.quran, none⟩,
       ⟨"Dhuhr", 44100, Kind.play, some SOUND_GENERAL⟩,
       ⟨"Asr-QuranPre", 56400, Kind.quran, none⟩,
       ⟨"Asr", 56700, Kind.play, some SOUND_GENERAL⟩,
       ⟨"Maghrib-QuranPre", 67500, Kind.quran, none⟩,
       ⟨"Maghrib", 67800, Kind.play, some SOUND_GENERAL⟩,
       ⟨"Isha-Pre", 71433, Kind.play, some SOUND_ISHA_PRE⟩,
       ⟨"Isha", 72600, Kind.play, some SOUND_GENERAL⟩] := by
  decide


/-- Keys present in the accumulator survive one step of the firing pass. -/
theorem tickFireStep_fst_mono (now : ℤ) (acc : List Key × List Event) (f : Event) :
    ∀ k ∈ acc.1, k ∈ (tickFireStep now acc f).1 := by
  intro k hk
  unfold tickFireStep
  split
  · exact hk
  · split
    · exact List.mem_append_left _ hk
    · exact hk

/-- Keys present in the accumulator survive the whole firing pass. -/
theorem tickFire_foldl_fst_mono (now : ℤ) (sched : List Event) :
    ∀ (acc : List Key × List Event) (k : Key), k ∈ acc.1 →
      k ∈ (List.foldl (tickFireStep now) acc sched).1 := by
  induction sched with
  | nil => intro acc k hk; exact hk
  | cons f rest ih =>
    intro acc k hk
    exact ih _ k (tickFireStep_fst_mono now acc f k hk)

/-- After the pass, every due event of the schedule has its key in the
fired set (it was either already there or was added when it fired). -/
theorem tickFire_foldl_due_mem (now : ℤ) (sched : List Event) :
    ∀ (acc : List Key × List Event) (e : Event), e ∈ sched → isDue now e →
      fireKey e ∈ (List.foldl (tickFireStep now) acc sched).1 := by
  induction sched with
  | nil => intro acc e he _; exact absurd he (List.not_mem_nil e)
  | cons f rest ih =>
    intro acc e he hdue
    rcases List.mem_cons.mp he with rfl | he2
    · rw [List.foldl_cons]
      apply tickFire_foldl_fst_mono
      by_cases h1 : fireKey e ∈ acc.1
      · simp [tickFireStep, h1]
      · simp [tickFireStep, h1, hdue]
    · exact ih _ e he2 hdue

/-- If every due event of the schedule already has its key in the fired
set, the pass is a no-op. -/
theorem tickFire_foldl_all_fired (now : ℤ) (sched : List Event) :
    ∀ acc : List Key × List Event,
      (∀ e ∈ sched, isDue now e → fireKey e ∈ acc.1) →
      List.foldl (tickFireStep now) acc sched = acc := by
  induction sched with
  | nil => intro acc _; rfl
  | cons f rest ih =>
    intro acc h
    have hstep : tickFireStep now acc f = acc := by
      unfold tickFireStep
      split
      · rfl
      · split
        · exact absurd (h f (List.mem_cons_self f rest) (by assumption)) (by assumption)
        · rfl
    rw [List.foldl_cons, hstep]
    exact ih acc fun e he => h e (List.mem_cons_of_mem f he)

/-- Every event the pass fires was not yet in the accumulator: either it
was already in the fired-events component, or its key was absent from the
fired set and it was due. -/
theorem tickFire_foldl_snd_mem (now : ℤ) (sched : List Event) :
    ∀ (acc : List Key × List Event) (e : Event),
      e ∈ (List.foldl (tickFireStep now) acc sched).2 →
      e ∈ acc.2 ∨ (fireKey e ∉ acc.1 ∧ isDue now e) := by
  induction sched with
  | nil => intro acc e he; exact Or.inl he
  | cons f rest ih =>
    intro acc e he
    rcases ih _ e he with h2 | h2
    · revert h2
      unfold tickFireStep
      split
      · exact Or.inl
      · split
        · intro h2
          rcases List.mem_append.mp h2 with h3 | h3
          · exact Or.inl h3
          · rcases List.mem_singleton.mp h3 with rfl
            exact Or.inr ⟨by assumption, by assumption⟩
        · exact Or.inl
    · exact Or.inr ⟨fun hk => h2.1 (tickFireStep_fst_mono now acc f _ hk), h2.2⟩

/-- One step preserves the invariant that every already-fired event of the
pass has its key in the fired set. -/
theorem tickFireStep_snd_key (now : ℤ) (acc : List Key × List Event) (f : Event)
    (h : ∀ e ∈ acc.2, fireKey e ∈ acc.1) :
    ∀ e ∈ (tickFireStep now acc f).2, fireKey e ∈ (tickFireStep now acc f).1 := by
  by_cases h1 : fireKey f ∈ acc.1
  · simpa [tickFireStep, h1] using h
  · by_cases h2 : isDue now f
    · intro e he
      simp only [tickFireStep, if_neg h1, if_pos h2] at he ⊢
      rcases List.mem_append.mp he with h3 | h3
      · exact List.mem_append_left _ (h e h3)
      · rcases List.mem_singleton.mp h3 with rfl
        exact List.mem_append_right _ (List.mem_singleton.mpr rfl)
    · simpa [tickFireStep, h1, h2] using h

/-- Every event fired during the pass has its key in the fired set when the
pass ends. -/
theorem tickFire_foldl_snd_key_mem (now : ℤ) (sched : List Event) :
    ∀ acc : List Key × List Event,
      (∀ e ∈ acc.2, fireKey e ∈ acc.1) →
      ∀ e ∈ (List.foldl (tickFireStep now) acc sched).2,
        fireKey e ∈ (List.foldl (tickFireStep now) acc sched).1 := by
  induction sched with
  | nil => intro acc h e he; exact h e he
  | cons f rest ih =>
    intro acc h
    exact ih _ (tickFireStep_snd_key now acc f h)

/-- C1: in the firing pass of a steady-state tick, an event whose key is
already in the fired set is skipped; an event that fires is due and has its
key added to the fired set in the same pass; every due event's key is in
the fired set after the pass; and running the pass again with the same
`now` on the resulting fired set fires nothing and changes nothing — so
repeated ticks with the same `now` fire each due event exactly once, until
a successful rebuild clears the fired set. -/
theorem tick_fires_each_due_event_once (now : ℤ) (sched : List Event)
    (fired : List Key) :
    (∀ e : Event, fireKey e ∈ fired → e ∉ (tickFire now sched fired).2) ∧
      (∀ e ∈ (tickFire now sched fired).2,
        isDue now e ∧ fireKey e ∈ (tickFire now sched fired).1) ∧
      (∀ e ∈ sched, isDue now e → fireKey e ∈ (tickFire now sched fired).1) ∧
      tickFire now sched (tickFire now sched fired).1 =
        ((tickFire now sched fired).1, []) := by
  refine ⟨?_, ?_, ?_, ?_⟩
  · intro e hk hmem
    rcases tickFire_foldl_snd_mem now sched (fired, []) e hmem with h | h
    · simp at h
    · exact h.1 hk
  · intro e hmem
    constructor
    · rcases tickFire_foldl_snd_mem now sched (fired, []) e hmem with h | h
      · simp at h
      · exact h.2
    · exact tickFire_foldl_snd_key_mem now sched (fired, []) (by simp) e hmem
  · intro e he hdue
    exact tickFire_foldl_due_mem now sched (fired, []) e he hdue
  · exact tickFire_foldl_all_fired now sched ((tickFire now sched fired).1, [])
      fun e he hdue => tickFire_foldl_due_mem now sched (fired, []) e he hdue

/-- Witness for C1 at a concrete input: a due event fired from an empty
fired set has its key recorded by the pass. -/
theorem tick_fires_each_due_event_once_witness :
    fireKey (⟨"Fajr", 100, Kind.play, none⟩ : Event) ∈
      (tickFire 100 [⟨"Fajr", 100, Kind.play, none⟩] []).1 :=
  (tick_fires_each_due_event_once 100 [⟨"Fajr", 100, Kind.play, none⟩] []).2.2.1
    ⟨"Fajr", 100, Kind.play, none⟩ (by simp) (by decide)

/-- C9: when the periodic rebuild raises, the tick leaves the engine state
unchanged — the previous generation's schedule and its fired set are kept
intact, and no events are evaluated or fired during that tick — and the
loop continues (after a 5-minute backoff sleep, which the model abstracts
away) instead of crashing. -/
theorem refresh_failure_preserves_state (nowDate nowTime nowAbs : ℤ)
    (s : EngineState)
    (h : should_refresh nowDate nowTime s.lastRefreshDate s.refreshedAfter2am
      = true) :
    tick nowDate nowTime nowAbs none s = (s, []) := by
  simp [tick, h]

/-- Witness for C9 at a concrete state: the state built at 00:00 wants a
refresh at 02:00; with the rebuild failing, the tick is a no-op. -/
theorem refresh_failure_preserves_state_witness :
    tick 0 dtime2AM 0 none (initState 0 0 []) = (initState 0 0 [], []) :=
  refresh_failure_preserves_state 0 dtime2AM 0 (initState 0 0 []) (by decide)

/-- If its condition fails, the late flag update is the identity. -/
theorem lateFlagUpdate_eq_self (nowDate nowTime : ℤ) (s : EngineState)
    (h : ¬(s.refreshedAfter2am = false ∧ dtime2AM ≤ nowTime ∧
      s.lastRefreshDate = some nowDate)) :
    lateFlagUpdate nowDate nowTime s = s := by
  unfold lateFlagUpdate
  exact if_neg h

/-- C8: in every reachable state of the engine loop, `refreshedAfter2am` is
true only if the schedule generation identified by `lastRefreshDate` was
rebuilt at or after 02:00 local time at least once; in particular the
late-tick update that sets the flag without rebuilding never makes the flag
true for a day whose schedule was only built before 02:00. -/
theorem reachable_flagInvariant (s : EngineState) (h : Reachable s) :
    flagInvariant s := by
  induction h with
  | init nowDate nowTime sched =>
    intro hflag
    exact ⟨(nowDate, nowTime), List.mem_singleton.mpr rfl, rfl,
      of_decide_eq_true hflag⟩
  | step s nowDate nowTime nowAbs rebuild _ ih =>
    by_cases hsr : should_refresh nowDate nowTime s.lastRefreshDate
        s.refreshedAfter2am = true
    · rcases rebuild with _ | sched0
      · simpa [tick, hsr] using ih
      · simp only [tick, hsr, if_true]
        by_cases hc : dtime2AM ≤ nowTime
        · rw [lateFlagUpdate_eq_self]
          · intro _
            exact ⟨(nowDate, nowTime), by simp, rfl, hc⟩
          · simp [hc]
        · rw [lateFlagUpdate_eq_self]
          · intro hflag
            exact absurd (of_decide_eq_true hflag) hc
          · simp [hc]
    · simp only [tick, hsr, if_false]
      rw [lateFlagUpdate_eq_self]
      · exact ih
      · intro hcond
        exact hsr ((should_refresh_eq_true nowDate nowTime s.lastRefreshDate
          s.refreshedAfter2am).mpr (Or.inr (Or.inr ⟨hcond.1, hcond.2.1⟩)))

/-- Witness for C8: the invariant holds at the concrete reachable state
built at 02:00. -/
theorem reachable_flagInvariant_witness :
    flagInvariant (initState 0 dtime2AM []) :=
  reachable_flagInvariant (initState 0 dtime2AM []) (Reachable.init 0 dtime2AM [])

/-- C6: for every input, the builder output is sorted ascending by fire
time, and any two emitted events with equal fire times keep their relative
emission order in the output (the sort is stable). -/
theorem build_sorted_and_stable (times : String → Option ℤ)
    (isFriday ishaPreFileExists : Bool) :
    (build_today_schedule times isFriday ishaPreFileExists).Sorted eventLe ∧
      ∀ a b : Event, a.fireAt = b.fireAt →
        [a, b].Sublist (emitSchedule times isFriday ishaPreFileExists) →
        [a, b].Sublist (build_today_schedule times isFriday ishaPreFileExists) :=
  ⟨List.sorted_insertionSort eventLe _,
    fun _ _ hab hsub => List.pair_sublist_insertionSort (le_of_eq hab) hsub⟩

/-- Witness for C6: with Fajr at 06:35 the pre-segment and the morning
event tie at 06:30, and the builder keeps their emission order. -/
theorem build_sorted_and_stable_witness :
    [(⟨"Fajr-QuranPre", 23400, Kind.quran, none⟩ : Event),
      ⟨"Morning-Athkar", 23400, Kind.play, some SOUND_MORNING⟩].Sublist
      (build_today_schedule tieTimes false false) :=
  (build_sorted_and_stable tieTimes false false).2
    ⟨"Fajr-QuranPre", 23400, Kind.quran, none⟩
    ⟨"Morning-Athkar", 23400, Kind.play, some SOUND_MORNING⟩
    rfl (by decide)

/-- C7: on the congregational day (Friday), whenever the Asr time is
present in the input, the builder emits a Kahf event exactly 31 minutes
before the Asr time and emits no Asr pre-segment event. -/
theorem friday_kahf_no_asr_pre (times : String → Option ℤ)
    (ishaPreFileExists : Bool) (asrT : ℤ) (h : times "Asr" = some asrT) :
    (⟨"Kahf-PreAsr", asrT - 31 * 60, Kind.play, some SOUND_KAHF⟩ : Event) ∈
        build_today_schedule times true ishaPreFileExists ∧
      ∀ e ∈ build_today_schedule times true ishaPreFileExists,
        e.label ≠ "Asr-QuranPre" := by
  constructor
  · rw [build_today_schedule, List.mem_insertionSort]
    simp [emitSchedule, h]
  · have hnot : "Asr-QuranPre" ∉
        (emitSchedule times true ishaPreFileExists).map Event.label := by
      rcases hF : times "Fajr" with _ | tF <;>
        rcases hD : times "Dhuhr" with _ | tD <;>
          rcases hM : times "Maghrib" with _ | tM <;>
            rcases hI : times "Isha" with _ | tI <;>
              rcases ishaPreFileExists with _ | _ <;>
                simp [emitSchedule, PRAYERS, h, hF, hD, hM, hI, sound_for,
                  SOUND_GENERAL, SOUND_FAJR, SOUND_ISHA_PRE, SOUND_MORNING,
                  SOUND_KAHF]
    intro e he hlabel
    exact hnot (List.mem_map.mpr
      ⟨e, (List.mem_insertionSort eventLe).mp he, hlabel⟩)

/-- Witness for C7 at the example input: Asr 3:45 PM gives the Kahf event
at 15:14. -/
theorem friday_kahf_no_asr_pre_witness :
    (⟨"Kahf-PreAsr", 56700 - 31 * 60, Kind.play, some SOUND_KAHF⟩ : Event) ∈
      build_today_schedule exampleTimes true true :=
  (friday_kahf_no_asr_pre exampleTimes true 56700 rfl).1

/-- Within one emission, all labels are pairwise distinct. -/
theorem emit_labels_nodup (times : String → Option ℤ)
    (isFriday ishaPreFileExists : Bool) :
    ((emitSchedule times isFriday ishaPreFileExists).map Event.label).Nodup := by
  rcases hF : times "Fajr" with _ | tF <;>
    rcases hD : times "Dhuhr" with _ | tD <;>
      rcases hA : times "Asr" with _ | tA <;>
        rcases hM : times "Maghrib" with _ | tM <;>
          rcases hI : times "Isha" with _ | tI <;>
            rcases isFriday with _ | _ <;>
              rcases ishaPreFileExists with _ | _ <;>
                simp [emitSchedule, PRAYERS, hF, hD, hA, hM, hI, sound_for,
                  SOUND_GENERAL, SOUND_FAJR, SOUND_ISHA_PRE, SOUND_MORNING,
                  SOUND_KAHF]

/-- C10: within any single schedule generation, the events carry pairwise
distinct labels, so the fired-set keys `(label, fireAt)` are pairwise
distinct as well and marking one event fired can never suppress a
different event of the same generation. -/
theorem build_labels_and_keys_nodup (times : String → Option ℤ)
    (isFriday ishaPreFileExists : Bool) :
    ((build_today_schedule times isFriday ishaPreFileExists).map
        Event.label).Nodup ∧
      ((build_today_schedule times isFriday ishaPreFileExists).map
        fireKey).Nodup := by
  have hperm := List.perm_insertionSort eventLe
    (emitSchedule times isFriday ishaPreFileExists)
  have h1 : ((build_today_schedule times isFriday ishaPreFileExists).map
      Event.label).Nodup :=
    ((hperm.map Event.label).nodup_iff).mpr
      (emit_labels_nodup times isFriday ishaPreFileExists)
  refine ⟨h1, ?_⟩
  apply List.Nodup.of_map Prod.fst
  rw [List.map_map]
  exact h1

end Athan
